import Mathlib

/-!
Verification of the conference-scheduling skill repository.

The repository contains two Python variants of the same scheduler:
`conference-scheduler-google-skill/assets/scheduler.py` (OR-Tools CP-SAT)
and `conference-scheduler-solverforge-skill/assets/scheduler.py`
(SolverForge / Timefold constraint streams).  Both share the same domain
model (Timeslot, Room, Speaker, Talk, TalkAssignment), the same CSV
parsing helpers and the same output rendering.  The constraint
definitions that score a schedule are spelled out explicitly in the
SolverForge variant and are embedded here function by function.

Python equality on the domain dataclasses is identity-by-id
(`__eq__`/`__hash__` compare the `id` field); the joins in the
constraint streams therefore compare ids, and the embedding does the
same through the `...IdEq` helpers below.
-/

namespace ConfSched

/-- Embeds the `Timeslot` dataclass common to both scheduler variants:
an id, start/end times as strings, a day index and an optional day
name. -/
structure Timeslot where
  id : String
  from_hour : String
  to_hour : String
  day_index : Nat
  day_name : Option String
deriving DecidableEq

/-- Splits a character list at every occurrence of the separator,
mirroring the Python `self.from_hour.split(':')` used by `slot_index`. -/
def splitOnChar (sep : Char) : List Char → List (List Char)
  | [] => [[]]
  | c :: cs =>
    match splitOnChar sep cs with
    | [] => [[c]]
    | cur :: rest => if c = sep then [] :: cur :: rest else (c :: cur) :: rest

/-- Parses a run of decimal digits, mirroring the Python `int(...)`
conversion applied to each split field (`none` where `int` raises). -/
def digitsToNat : List Char → Option Nat
  | [] => none
  | l =>
    if l.all Char.isDigit then
      some (l.foldl (fun n c => n * 10 + (c.toNat - 48)) 0)
    else none

/-- Embeds the parse done by `Timeslot.slot_index`:
`h, m = map(int, self.from_hour.split(':'))` yields `h * 60 + m`.
Returns `none` where the Python code would raise (not exactly two
fields, or a field that is not a numeral). -/
def minutesFromMidnight (s : String) : Option Nat :=
  match splitOnChar ':' s.data with
  | [hs, ms] =>
    match digitsToNat hs, digitsToNat ms with
    | some h, some m => some (h * 60 + m)
    | _, _ => none
  | _ => none

/-- Embeds the `slot_index` property of `Timeslot` in both variants:
`day_index * 10000 + (h * 60 + m)` where `h, m` are parsed from
`from_hour`.  On an unparsable `from_hour` the Python code raises; the
model defaults the minutes to 0 there (no claim touches that case). -/
def Timeslot.slot_index (t : Timeslot) : Nat :=
  t.day_index * 10000 + (minutesFromMidnight t.from_hour).getD 0

/-- Embeds the `Room` dataclass of the SolverForge variant (the Google
variant has only `name`; its `__hash__` uses `name` as the identity,
which the SolverForge variant realizes by setting `id = name` in
`read_schedule_csv`). -/
structure Room where
  id : String
  name : String
deriving DecidableEq

/-- Embeds the `Speaker` dataclass of the SolverForge variant: id,
display name and the set of allowed day indices (empty set = available
every day). -/
structure Speaker where
  id : String
  name : String
  available_days : Finset Nat
deriving DecidableEq

/-- Embeds `Speaker.is_available_on`: empty availability set means all
days, otherwise the day must be a member. -/
def Speaker.is_available_on (s : Speaker) (day : Nat) : Bool :=
  s.available_days = ∅ ∨ day ∈ s.available_days

/-- Embeds the `Talk` problem fact of the SolverForge variant.  The
`flow_order` field is an `Int` as in Python (`0` encodes "no explicit
order"). -/
structure Talk where
  id : String
  title : String
  summary : String
  track_name : String
  audience_level : String
  speakers : List Speaker
  flow_order : Int
deriving DecidableEq

/-- Embeds `Talk.level_order` (identical in both variants):
`{"BEGINNER": 1, "INTERMEDIATE": 2, "ADVANCED": 3}.get(upper, 2)`. -/
def Talk.level_order (t : Talk) : Nat :=
  if t.audience_level.toUpper = "BEGINNER" then 1
  else if t.audience_level.toUpper = "INTERMEDIATE" then 2
  else if t.audience_level.toUpper = "ADVANCED" then 3
  else 2

/-- Embeds the `TalkSpeaker` linking fact of the SolverForge variant:
links one speaker to one talk for the constraint stream joins. -/
structure TalkSpeaker where
  id : String
  speaker : Speaker
  talk_id : String
deriving DecidableEq

/-- Embeds the `TalkAssignment` planning entity of the SolverForge
variant: a talk plus its two planning variables, possibly unset.  The
Google variant stores the same two optional fields directly on `Talk`. -/
structure TalkAssignment where
  id : String
  talk : Talk
  timeslot : Option Timeslot
  room : Option Room
deriving DecidableEq

/-- Embeds `TalkAssignment.get_slot_index` (None when unassigned). -/
def TalkAssignment.get_slot_index (a : TalkAssignment) : Option Nat :=
  a.timeslot.map Timeslot.slot_index

/-- Embeds `TalkAssignment.get_day_index` (None when unassigned). -/
def TalkAssignment.get_day_index (a : TalkAssignment) : Option Nat :=
  a.timeslot.map Timeslot.day_index

/-- Python `==` on `Optional[Timeslot]`: both `None`, or ids equal
(`Timeslot.__eq__` compares the `id` field). -/
def tsIdEq : Option Timeslot → Option Timeslot → Bool
  | none, none => true
  | some t1, some t2 => t1.id = t2.id
  | _, _ => false

/-- Python `==` on `Optional[Room]`: both `None`, or ids equal. -/
def roomIdEq : Option Room → Option Room → Bool
  | none, none => true
  | some r1, some r2 => r1.id = r2.id
  | _, _ => false

/-- Python `==` on `Optional[int]` day indices. -/
def dayIdxEq : Option Nat → Option Nat → Bool
  | none, none => true
  | some d1, some d2 => d1 = d2
  | _, _ => false

/-- Sum of `f x y` over the unordered pairs of a list (each pair of
positions `i < j` once).  This is the counting semantics of
`for_each_unique_pair` in the SolverForge constraint streams. -/
def pairCount (f : α → α → Nat) : List α → Nat
  | [] => 0
  | x :: xs => (xs.map (f x)).sum + pairCount f xs

/-- Sum of `f x y` over all `x` from the first and `y` from the second
list (the pairs of an append that straddle the boundary). -/
def crossSum (f : α → α → Nat) (xs ys : List α) : Nat :=
  (xs.map (fun x => (ys.map (f x)).sum)).sum

/-- Embeds the `room_conflict` constraint: unique pairs joined on equal
room and equal timeslot, filtered to `a1.timeslot is not None and
a1.room is not None`, one hard unit each. -/
def roomConflictCost (a1 a2 : TalkAssignment) : Nat :=
  if roomIdEq a1.room a2.room && tsIdEq a1.timeslot a2.timeslot
      && a1.timeslot.isSome && a1.room.isSome then 1 else 0

/-- Total hard units contributed by `room_conflict`. -/
def roomConflictCount (asg : List TalkAssignment) : Nat :=
  pairCount roomConflictCost asg

/-- Embeds the `track_conflict` constraint: unique pairs joined on equal
`talk.track_name` and equal timeslot, filtered to a non-None timeslot,
one hard unit each. -/
def trackConflictCost (a1 a2 : TalkAssignment) : Nat :=
  if (a1.talk.track_name == a2.talk.track_name) && tsIdEq a1.timeslot a2.timeslot
      && a1.timeslot.isSome then 1 else 0

/-- Total hard units contributed by `track_conflict`. -/
def trackConflictCount (asg : List TalkAssignment) : Nat :=
  pairCount trackConflictCost asg

/-- Embeds `_all_speakers_available`: `True` when the day is `None`,
otherwise every speaker of the talk must be available on that day. -/
def allSpeakersAvailable (t : Talk) : Option Nat → Bool
  | none => true
  | some d => t.speakers.all (fun s => s.is_available_on d)

/-- Embeds the `speaker_availability` constraint: every assignment with
a non-None timeslot whose talk has some unavailable speaker costs one
hard unit. -/
def speakerAvailabilityCount (asg : List TalkAssignment) : Nat :=
  asg.countP (fun a => a.timeslot.isSome && !(allSpeakersAvailable a.talk a.get_day_index))

/-- Embeds the `speaker_conflict` constraint stream for one unique pair
of `TalkSpeaker` links: when the two links carry the same speaker
(Python `==` compares speaker ids), join each link to the assignments
of its talk (`ts.talk_id == a.talk.id`), require equal timeslots on the
two joined assignments and a non-None timeslot, and count every joined
tuple once. -/
def linkPairCost (asg : List TalkAssignment) (l1 l2 : TalkSpeaker) : Nat :=
  if l1.speaker.id == l2.speaker.id then
    ((asg.filter (fun a1 => a1.talk.id == l1.talk_id)).map (fun a1 =>
      (asg.filter (fun a2 => (a2.talk.id == l2.talk_id)
        && tsIdEq a1.timeslot a2.timeslot && a1.timeslot.isSome)).length)).sum
  else 0

/-- Total hard units contributed by `speaker_conflict` given the
`TalkSpeaker` linking facts. -/
def speakerConflictCount (links : List TalkSpeaker) (asg : List TalkAssignment) : Nat :=
  pairCount (linkPairCost asg) links

/-- Embeds `_violates_level_flow`: with both slot indices present, a
violation when the strictly higher `level_order` sits at the strictly
smaller slot index (in either direction). -/
def violatesLevelFlow (a1 a2 : TalkAssignment) : Bool :=
  match a1.get_slot_index, a2.get_slot_index with
  | some s1, some s2 =>
    (decide (a1.talk.level_order > a2.talk.level_order) && decide (s1 < s2)) ||
    (decide (a2.talk.level_order > a1.talk.level_order) && decide (s2 < s1))
  | _, _ => false

/-- Embeds the `educational_flow_level` constraint: unique pairs joined
on equal track name and equal `get_day_index()`, filtered to both
timeslots non-None and `_violates_level_flow`, one soft unit each. -/
def educationalFlowLevelCost (a1 a2 : TalkAssignment) : Nat :=
  if (a1.talk.track_name == a2.talk.track_name)
      && dayIdxEq a1.get_day_index a2.get_day_index
      && a1.timeslot.isSome && a2.timeslot.isSome
      && violatesLevelFlow a1 a2 then 1 else 0

/-- Total soft units contributed by `educational_flow_level`. -/
def educationalFlowLevelCount (asg : List TalkAssignment) : Nat :=
  pairCount educationalFlowLevelCost asg

/-- Embeds `_violates_flow_order`: no violation when the two orders are
equal or either is zero; otherwise, with both slot indices present, a
violation when the strictly higher `flow_order` sits at the strictly
smaller slot index. -/
def violatesFlowOrder (a1 a2 : TalkAssignment) : Bool :=
  if a1.talk.flow_order == a2.talk.flow_order
      || a1.talk.flow_order == 0 || a2.talk.flow_order == 0 then false
  else
    match a1.get_slot_index, a2.get_slot_index with
    | some s1, some s2 =>
      (decide (a1.talk.flow_order > a2.talk.flow_order) && decide (s1 < s2)) ||
      (decide (a2.talk.flow_order > a1.talk.flow_order) && decide (s2 < s1))
    | _, _ => false

/-- Embeds the `educational_flow_order` constraint: unique pairs joined
on equal track name and equal `get_day_index()`, filtered to both
timeslots non-None and `_violates_flow_order`, one soft unit each. -/
def educationalFlowOrderCost (a1 a2 : TalkAssignment) : Nat :=
  if (a1.talk.track_name == a2.talk.track_name)
      && dayIdxEq a1.get_day_index a2.get_day_index
      && a1.timeslot.isSome && a2.timeslot.isSome
      && violatesFlowOrder a1 a2 then 1 else 0

/-- Total soft units contributed by `educational_flow_order`. -/
def educationalFlowOrderCount (asg : List TalkAssignment) : Nat :=
  pairCount educationalFlowOrderCost asg

/-- Embeds the `track_room_consistency` constraint: unique pairs joined
on equal track name and equal `get_day_index()`, filtered to both rooms
non-None and `a1.room != a2.room`, one soft unit each. -/
def trackRoomConsistencyCost (a1 a2 : TalkAssignment) : Nat :=
  if (a1.talk.track_name == a2.talk.track_name)
      && dayIdxEq a1.get_day_index a2.get_day_index
      && a1.room.isSome && a2.room.isSome
      && !(roomIdEq a1.room a2.room) then 1 else 0

/-- Total soft units contributed by `track_room_consistency`. -/
def trackRoomConsistencyCount (asg : List TalkAssignment) : Nat :=
  pairCount trackRoomConsistencyCost asg

/-- Total hard-violation count of a schedule: the four hard constraints
of `conference_constraints`, each weighing `HardSoftScore.ONE_HARD`. -/
def hardViolations (links : List TalkSpeaker) (asg : List TalkAssignment) : Nat :=
  roomConflictCount asg + speakerConflictCount links asg
    + trackConflictCount asg + speakerAvailabilityCount asg

/-- Links of a single talk as built by `read_talks_csv`: one link per
speaker occurrence with id `talk_id + "-" + speaker_id`. -/
def linksOf (t : Talk) : List TalkSpeaker :=
  t.speakers.map (fun s => ⟨t.id ++ "-" ++ s.id, s, t.id⟩)

/-- Embeds the `TalkSpeaker` list built by `read_talks_csv`: one link
per (talk, speaker) occurrence across all talks in order. -/
def mkLinks (talks : List Talk) : List TalkSpeaker :=
  talks.flatMap linksOf

/-- Embeds `create_problem`: one unassigned `TalkAssignment` per talk,
with id `"assign-" + talk.id`. -/
def createProblem (talks : List Talk) : List TalkAssignment :=
  talks.map (fun t => ⟨"assign-" ++ t.id, t, none, none⟩)

/-! ## Output rendering (write_csv_output / write_markdown_output / print_schedule)

All three renderers in both variants start with the same two lines:
filter to the assignments holding both a timeslot and a room, then sort
by the key `(timeslot.slot_index, room.name)`.  Python `list.sort` is a
stable sort on that key; the model uses `List.mergeSort` with the
corresponding non-strict lexicographic comparison. -/

/-- Embeds the truthiness test `if t.timeslot and t.room` of the
renderers: a dataclass instance is truthy, `None` is falsy. -/
def fullyAssigned (a : TalkAssignment) : Bool :=
  a.timeslot.isSome && a.room.isSome

/-- First component of the Python sort key `t.timeslot.slot_index`
(the renderers only apply it after the `fullyAssigned` filter, so the
default is never consulted there). -/
def slotKey (a : TalkAssignment) : Nat :=
  (a.timeslot.map Timeslot.slot_index).getD 0

/-- Second component of the Python sort key `t.room.name`. -/
def roomKey (a : TalkAssignment) : String :=
  (a.room.map Room.name).getD ""

/-- Non-strict lexicographic comparison on the sort key
`(slot_index, room name)`, the order realized by the Python tuple
comparison in `sort(key=...)`. -/
def outputLe (a b : TalkAssignment) : Bool :=
  decide (slotKey a < slotKey b)
    || (decide (slotKey a = slotKey b) && decide (roomKey a ≤ roomKey b))

/-- Embeds the first two lines of `write_csv_output`: filter to fully
assigned talks, sort ascending by `(timeslot.slot_index, room.name)`. -/
def csvScheduled (asg : List TalkAssignment) : List TalkAssignment :=
  (asg.filter fullyAssigned).mergeSort outputLe

/-- Embeds the first two lines of `write_markdown_output` (identical to
the CSV renderer's selection). -/
def mdScheduled (asg : List TalkAssignment) : List TalkAssignment :=
  (asg.filter fullyAssigned).mergeSort outputLe

/-- Embeds the first two lines of `print_schedule` (identical to the
CSV renderer's selection). -/
def consoleScheduled (asg : List TalkAssignment) : List TalkAssignment :=
  (asg.filter fullyAssigned).mergeSort outputLe

/-! ## Speaker availability merging in read_talks_csv (SolverForge) -/

/-- Embeds one update of `speakers_dict[speaker_id].available_days` in
`read_talks_csv` for a repeated speaker name declaring `s`: an empty
declaration changes nothing; otherwise intersect when the stored set is
nonempty, else overwrite the stored (empty) set with a copy of `s`. -/
def mergeStep (acc s : Finset Nat) : Finset Nat :=
  if s = ∅ then acc
  else if acc = ∅ then s
  else acc ∩ s

/-- Availability set stored for one speaker name after `read_talks_csv`
has processed every talk declaring that name, given the declared sets in
talk order.  The first occurrence stores a copy of its declared set,
which coincides with folding `mergeStep` from the empty set. -/
def mergeAvailability (decls : List (Finset Nat)) : Finset Nat :=
  decls.foldl mergeStep ∅

/-- Intersection of a nonempty list of sets (`none` for an empty
list). -/
def interAll : List (Finset Nat) → Option (Finset Nat)
  | [] => none
  | s :: rest => some (rest.foldl (· ∩ ·) s)

/-- Follows the spec's words for the availability merge: "its
availability set is the intersection of all declared availabilities for
that name", "an empty declared set meaning available every day, so it
does not restrict the intersection" — the intersection of the nonempty
declared sets, and the unrestricted (empty) set when every declaration
is empty. -/
def specMergedAvailability (decls : List (Finset Nat)) : Finset Nat :=
  (interAll (decls.filter (fun s => s ≠ ∅))).getD ∅

/-! ## Spec-worded constraint predicates

The following definitions transcribe the spec's sentences (not the
code) and are compared with the stream embeddings above. -/

/-- Follows the spec's words "two distinct talks share at least one
speaker": the speakers of the first talk whose id also appears among
the speakers of the second. -/
def specSharedSpeakerIds (t1 t2 : Talk) : List String :=
  (t1.speakers.map Speaker.id).filter (fun i => decide (i ∈ t2.speakers.map Speaker.id))

/-- Follows the spec's words for the speaker-conflict count: "exactly 1
per violating pair" of talks — one unit when the pair shares at least
one speaker and sits in the same (non-None) timeslot, regardless of how
many speakers are shared. -/
def specSpeakerPairCost (a1 a2 : TalkAssignment) : Nat :=
  if !(specSharedSpeakerIds a1.talk a2.talk).isEmpty
      && tsIdEq a1.timeslot a2.timeslot && a1.timeslot.isSome then 1 else 0

/-- Speaker-conflict count as the spec words it: one unit per violating
unordered pair of talks. -/
def specSpeakerConflictCount (asg : List TalkAssignment) : Nat :=
  pairCount specSpeakerPairCost asg

/-- Amended counting rule for the speaker conflict: one unit per shared
speaker of a violating pair of talks. -/
def sharedSpeakerCost (a1 a2 : TalkAssignment) : Nat :=
  if tsIdEq a1.timeslot a2.timeslot && a1.timeslot.isSome then
    (specSharedSpeakerIds a1.talk a2.talk).length
  else 0

/-- Speaker-conflict count under the amended rule. -/
def perSharedSpeakerConflictCount (asg : List TalkAssignment) : Nat :=
  pairCount sharedSpeakerCost asg

/-- Follows the spec's words for the level-flow soft constraint: for an
unordered pair of talks that hold timeslots sharing a track and a day,
one unit when the strictly higher numeric level is scheduled strictly
earlier in slot order (symmetrically); otherwise none. -/
def specLevelFlowCost (a1 a2 : TalkAssignment) : Nat :=
  match a1.timeslot, a2.timeslot with
  | some t1, some t2 =>
    if (a1.talk.track_name == a2.talk.track_name) && decide (t1.day_index = t2.day_index)
        && ((decide (a1.talk.level_order > a2.talk.level_order)
              && decide (t1.slot_index < t2.slot_index))
          || (decide (a2.talk.level_order > a1.talk.level_order)
              && decide (t2.slot_index < t1.slot_index))) then 1 else 0
  | _, _ => 0

/-- Follows the spec's words for the explicit-flow-order soft
constraint: the same pairwise rule with `flow_order` instead of level,
but only when both orders are nonzero and mutually unequal. -/
def specFlowOrderCost (a1 a2 : TalkAssignment) : Nat :=
  match a1.timeslot, a2.timeslot with
  | some t1, some t2 =>
    if (a1.talk.track_name == a2.talk.track_name) && decide (t1.day_index = t2.day_index)
        && !(a1.talk.flow_order == 0) && !(a2.talk.flow_order == 0)
        && !(a1.talk.flow_order == a2.talk.flow_order)
        && ((decide (a1.talk.flow_order > a2.talk.flow_order)
              && decide (t1.slot_index < t2.slot_index))
          || (decide (a2.talk.flow_order > a1.talk.flow_order)
              && decide (t2.slot_index < t1.slot_index))) then 1 else 0
  | _, _ => 0

/-- Follows the spec's words for track/room consistency on a fully
assigned pair: talks sharing a track and a day cost one unit when put
in different rooms and none when sharing a room. -/
def specTrackRoomCost (a1 a2 : TalkAssignment) : Nat :=
  match a1.timeslot, a2.timeslot, a1.room, a2.room with
  | some t1, some t2, some r1, some r2 =>
    if (a1.talk.track_name == a2.talk.track_name) && decide (t1.day_index = t2.day_index)
        && !(r1.id == r2.id) then 1 else 0
  | _, _, _, _ => 0

/-- Follows the spec's words for the speaker-availability hard
constraint: a talk holding a timeslot whose day index some of its
speakers (with a nonempty availability set) does not allow. -/
def specAvailabilityViolation (a : TalkAssignment) : Bool :=
  match a.timeslot with
  | none => false
  | some t =>
    a.talk.speakers.any (fun s =>
      decide (s.available_days ≠ ∅) && decide (t.day_index ∉ s.available_days))

/-! ## Spec-modelled solving engine

Both source variants delegate the solve itself to an external library
(OR-Tools CP-SAT, SolverForge).  The spec (sections 4.2 and 4.4)
specifies a construction heuristic and a solver orchestrator for a
standalone engine; that code exists nowhere under src/, so it is
modelled here from the spec's words. -/

/-- Modelled from the spec: the status enum of the solver orchestrator
(section 4.4) — `OPTIMAL_OR_FEASIBLE`, `INFEASIBLE_PARTIAL`,
`NO_SOLUTION`; the orchestrator code is missing from src/. -/
inductive SolveStatus
  | optimalOrFeasible
  | infeasibleBestEffort
  | noSolution
deriving DecidableEq

/-- Strict lexicographic order on character lists by code point, used
for the construction heuristic's room-name tie break. -/
def charListLt : List Char → List Char → Bool
  | [], [] => false
  | [], _ :: _ => true
  | _ :: _, [] => false
  | c :: cs, d :: ds =>
    c.toNat < d.toNat || (c.toNat = d.toNat && charListLt cs ds)

/-- Talks share a speaker when some speaker id occurs in both. -/
def sharesSpeakerTalk (t1 t2 : Talk) : Bool :=
  !(specSharedSpeakerIds t1 t2).isEmpty

/-- Modelled from the spec: the additional hard violations a candidate
(timeslot, room) pair for a talk introduces against the talks already
placed (section 4.2) — a room conflict, speaker conflict or track
conflict with each placed talk in the same timeslot. -/
def extraViolations (placed : List TalkAssignment) (t : Talk) (s : Timeslot) (r : Room) : Nat :=
  placed.foldl (fun acc a =>
    acc
    + (if tsIdEq a.timeslot (some s) && roomIdEq a.room (some r) then 1 else 0)
    + (if tsIdEq a.timeslot (some s) && sharesSpeakerTalk a.talk t then 1 else 0)
    + (if tsIdEq a.timeslot (some s) && (a.talk.track_name == t.track_name) then 1 else 0)) 0

/-- Compatibility of a talk with a timeslot per the spec's
"pairs compatible with its speaker-availability constraint". -/
def speakersCompatible (t : Talk) (s : Timeslot) : Bool :=
  t.speakers.all (fun sp => sp.is_available_on s.day_index)

/-- Candidate comparison for the construction heuristic: fewest extra
violations first, then earliest `slot_index`, then lexicographically
smallest room name. -/
def candBetter (c1 c2 : Nat × Timeslot × Room) : Bool :=
  decide (c1.1 < c2.1)
    || (decide (c1.1 = c2.1)
      && (decide (c1.2.1.slot_index < c2.2.1.slot_index)
        || (decide (c1.2.1.slot_index = c2.2.1.slot_index)
          && charListLt c1.2.2.name.data c2.2.2.name.data)))

/-- First minimum of a candidate list under `candBetter`. -/
def pickBest (cands : List (Nat × Timeslot × Room)) : Option (Nat × Timeslot × Room) :=
  cands.foldl (fun best c =>
    match best with
    | none => some c
    | some b => if candBetter c b then some c else some b) none

/-- Modelled from the spec: one step of the construction heuristic
(section 4.2), which is missing from src/ — among the compatible
(timeslot, room) pairs take the one introducing the fewest additional
hard violations with the stated tie breaks; a talk whose best candidate
still conflicts (capacity exhausted) or that has no compatible pair
remains unassigned by design. -/
def constructStep (slots : List Timeslot) (rooms : List Room)
    (placed : List TalkAssignment) (t : Talk) : List TalkAssignment :=
  let cands := (slots.filter (speakersCompatible t)).flatMap
    (fun s => rooms.map (fun r => (extraViolations placed t s r, s, r)))
  match pickBest cands with
  | some (0, s, r) => placed ++ [⟨"assign-" ++ t.id, t, some s, some r⟩]
  | _ => placed ++ [⟨"assign-" ++ t.id, t, none, none⟩]

/-- Modelled from the spec: the construction heuristic (section 4.2),
missing from src/ — processes the talks in their given (deterministic)
order and places each greedily. -/
def construct (slots : List Timeslot) (rooms : List Room) (talks : List Talk) :
    List TalkAssignment :=
  talks.foldl (constructStep slots rooms) []

/-- Modelled from the spec: the final status computation of the solver
orchestrator (section 4.4), missing from src/ — `NO_SOLUTION` only when
construction placed no talk at all, `INFEASIBLE_PARTIAL` when hard
violations remain or talks are unassigned, else `OPTIMAL_OR_FEASIBLE`.
The constructor `infeasibleBestEffort` renders `INFEASIBLE_PARTIAL`. -/
def computeStatus (asg : List TalkAssignment) (hard : Nat) : SolveStatus :=
  if !asg.isEmpty && asg.all (fun a => !a.timeslot.isSome) then .noSolution
  else if hard > 0 || asg.any (fun a => !(fullyAssigned a)) then .infeasibleBestEffort
  else .optimalOrFeasible

/-- Modelled from the spec: the orchestrated solve (sections 4.2-4.4),
missing from src/ — construct, score with the constraint evaluator,
report assignments, hard-violation count and status.  The optimization
phase cannot improve the `c1` scenario (it never worsens the score), so
the construction result is the engine result used here. -/
def solveEngine (slots : List Timeslot) (rooms : List Room) (talks : List Talk) :
    List TalkAssignment × Nat × SolveStatus :=
  let asg := construct slots rooms talks
  let hard := hardViolations (mkLinks talks) asg
  (asg, hard, computeStatus asg hard)

/-- Unassigned talk used to exhibit the renderers' filtering. -/
def unassignedExample : TalkAssignment :=
  ⟨"assign-9", ⟨"9", "T9", "", "trackZ", "INTERMEDIATE", [], 2⟩, none, none⟩
/-- Capacity-shortfall scenario of the spec: two timeslots, one room,
three talks with pairwise distinct speakers and tracks. -/
def c1Talks : List Talk :=
  [⟨"1", "T1", "", "trackA", "INTERMEDIATE", [⟨"alice", "Alice", ∅⟩], 2⟩,
   ⟨"2", "T2", "", "trackB", "INTERMEDIATE", [⟨"bob", "Bob", ∅⟩], 2⟩,
   ⟨"3", "T3", "", "trackC", "INTERMEDIATE", [⟨"carol", "Carol", ∅⟩], 2⟩]

/-- Engine result on the capacity-shortfall scenario. -/
def c1Result : List TalkAssignment × Nat × SolveStatus :=
  solveEngine
    [⟨"09:00-10:00", "09:00", "10:00", 0, none⟩, ⟨"10:00-11:00", "10:00", "11:00", 0, none⟩]
    [⟨"Room A", "Room A"⟩] c1Talks
/-- Talk used for the speaker-conflict counting analysis: two speakers
shared with `c2TalkB`. -/
def c2TalkA : Talk :=
  ⟨"1", "T1", "", "trackA", "INTERMEDIATE",
    [⟨"alice", "Alice", ∅⟩, ⟨"bob", "Bob", ∅⟩], 2⟩

/-- Second talk sharing both speakers with `c2TalkA`. -/
def c2TalkB : Talk :=
  ⟨"2", "T2", "", "trackB", "INTERMEDIATE",
    [⟨"alice", "Alice", ∅⟩, ⟨"bob", "Bob", ∅⟩], 2⟩

/-- Schedule putting the two speaker-sharing talks into one timeslot in
different rooms. -/
def c2Asg : List TalkAssignment :=
  [⟨"assign-1", c2TalkA, some ⟨"09:00-10:00", "09:00", "10:00", 0, none⟩,
      some ⟨"Room A", "Room A"⟩⟩,
   ⟨"assign-2", c2TalkB, some ⟨"09:00-10:00", "09:00", "10:00", 0, none⟩,
      some ⟨"Room B", "Room B"⟩⟩]

/-! ## Helper lemmas -/

/-- Congruence of `pairCount` under a pointwise-equal cost function. -/
theorem pairCount_congr {α : Type} {f g : α → α → Nat} (h : ∀ x y, f x y = g x y) :
    ∀ l : List α, pairCount f l = pairCount g l
  | [] => rfl
  | x :: xs => by
    simp only [pairCount]
    rw [pairCount_congr h xs, List.map_congr_left (fun y _ => h x y)]

/-- Congruence of `pairCount` under a cost function equal on members. -/
theorem pairCount_congr_mem {α : Type} {f g : α → α → Nat} :
    ∀ l : List α, (∀ x ∈ l, ∀ y ∈ l, f x y = g x y) → pairCount f l = pairCount g l
  | [], _ => rfl
  | x :: xs, h => by
    simp only [pairCount]
    rw [pairCount_congr_mem xs (fun a ha b hb => h a (List.mem_cons_of_mem x ha) b
      (List.mem_cons_of_mem x hb))]
    rw [List.map_congr_left (fun y hy => h x (List.mem_cons_self x xs) y
      (List.mem_cons_of_mem x hy))]

/-! ## Claim theorems -/

/-- C8: for every timeslot whose start time parses as `h:m`,
`slot_index = day_index * 10000 + (h * 60 + m)`, and (given minutes
below 10000, as any valid time of day is) two such timeslots are
ordered day-major, time-of-day-minor. -/
theorem slot_index_day_major (t1 t2 : Timeslot) (h1 m1 h2 m2 : Nat)
    (hs1 ms1 hs2 ms2 : List Char)
    (hsp1 : splitOnChar ':' t1.from_hour.data = [hs1, ms1])
    (hd1 : digitsToNat hs1 = some h1) (hm1 : digitsToNat ms1 = some m1)
    (hsp2 : splitOnChar ':' t2.from_hour.data = [hs2, ms2])
    (hd2 : digitsToNat hs2 = some h2) (hm2 : digitsToNat ms2 = some m2)
    (hb1 : h1 * 60 + m1 < 10000) (hb2 : h2 * 60 + m2 < 10000) :
    t1.slot_index = t1.day_index * 10000 + (h1 * 60 + m1)
    ∧ t2.slot_index = t2.day_index * 10000 + (h2 * 60 + m2)
    ∧ (t1.slot_index < t2.slot_index ↔
        (t1.day_index < t2.day_index
          ∨ (t1.day_index = t2.day_index ∧ h1 * 60 + m1 < h2 * 60 + m2))) := by
  have e1 : t1.slot_index = t1.day_index * 10000 + (h1 * 60 + m1) := by
    simp [Timeslot.slot_index, minutesFromMidnight, hsp1, hd1, hm1]
  have e2 : t2.slot_index = t2.day_index * 10000 + (h2 * 60 + m2) := by
    simp [Timeslot.slot_index, minutesFromMidnight, hsp2, hd2, hm2]
  refine ⟨e1, e2, ?_⟩
  rw [e1, e2]
  omega

/-- Concrete instantiation of the C8 theorem: day 1 at 09:30 gives slot
index 10570, day 2 at 08:05 gives 20485, and the order is day-major. -/
theorem slot_index_day_major_witness :
    (⟨"w1", "09:30", "10:30", 1, none⟩ : Timeslot).slot_index
        = (⟨"w1", "09:30", "10:30", 1, none⟩ : Timeslot).day_index * 10000 + (9 * 60 + 30)
    ∧ (⟨"w2", "08:05", "09:00", 2, none⟩ : Timeslot).slot_index
        = (⟨"w2", "08:05", "09:00", 2, none⟩ : Timeslot).day_index * 10000 + (8 * 60 + 5)
    ∧ ((⟨"w1", "09:30", "10:30", 1, none⟩ : Timeslot).slot_index
          < (⟨"w2", "08:05", "09:00", 2, none⟩ : Timeslot).slot_index ↔
        ((⟨"w1", "09:30", "10:30", 1, none⟩ : Timeslot).day_index
            < (⟨"w2", "08:05", "09:00", 2, none⟩ : Timeslot).day_index
          ∨ ((⟨"w1", "09:30", "10:30", 1, none⟩ : Timeslot).day_index
                = (⟨"w2", "08:05", "09:00", 2, none⟩ : Timeslot).day_index
              ∧ 9 * 60 + 30 < 8 * 60 + 5))) :=
  slot_index_day_major ⟨"w1", "09:30", "10:30", 1, none⟩ ⟨"w2", "08:05", "09:00", 2, none⟩
    9 30 8 5 ['0', '9'] ['3', '0'] ['0', '8'] ['0', '5']
    (by decide) (by decide) (by decide) (by decide) (by decide) (by decide)
    (by decide) (by decide)

/-- C4: the level-based educational-flow constraint counts exactly one
soft unit per unordered pair of timeslot-holding talks that share a
track name and a day where the strictly higher numeric level sits
strictly earlier in slot order (in either direction), and none for
pairs on different days, with equal levels, or in level-respecting
order — the stream embedding coincides with the spec-worded cost,
pairwise and in total. -/
theorem educational_flow_level_matches_spec :
    (∀ a1 a2 : TalkAssignment, educationalFlowLevelCost a1 a2 = specLevelFlowCost a1 a2)
    ∧ ∀ asg : List TalkAssignment,
        educationalFlowLevelCount asg = pairCount specLevelFlowCost asg := by
  have hpt : ∀ a1 a2 : TalkAssignment, educationalFlowLevelCost a1 a2 = specLevelFlowCost a1 a2 := by
    intro a1 a2
    cases h1 : a1.timeslot <;> cases h2 : a2.timeslot <;>
      simp [educationalFlowLevelCost, specLevelFlowCost, dayIdxEq, violatesLevelFlow,
        TalkAssignment.get_day_index, TalkAssignment.get_slot_index, h1, h2]
  exact ⟨hpt, fun asg => by
    simpa [educationalFlowLevelCount] using pairCount_congr hpt asg⟩

/-- C9: the explicit-flow-order constraint penalizes a sharing pair only
when both `flow_order` values are nonzero and mutually unequal and the
strictly larger one sits strictly earlier in slot order; zero or equal
values yield no penalty — the stream embedding coincides with the
spec-worded cost, pairwise and in total. -/
theorem educational_flow_order_matches_spec :
    (∀ a1 a2 : TalkAssignment, educationalFlowOrderCost a1 a2 = specFlowOrderCost a1 a2)
    ∧ ∀ asg : List TalkAssignment,
        educationalFlowOrderCount asg = pairCount specFlowOrderCost asg := by
  have hpt : ∀ a1 a2 : TalkAssignment, educationalFlowOrderCost a1 a2 = specFlowOrderCost a1 a2 := by
    intro a1 a2
    cases h1 : a1.timeslot <;> cases h2 : a2.timeslot <;>
      simp [educationalFlowOrderCost, specFlowOrderCost, dayIdxEq, violatesFlowOrder,
        TalkAssignment.get_day_index, TalkAssignment.get_slot_index, h1, h2] <;>
      by_cases he : a1.talk.flow_order = a2.talk.flow_order <;>
      by_cases hz1 : a1.talk.flow_order = 0 <;>
      by_cases hz2 : a2.talk.flow_order = 0 <;>
      simp [he, hz1, hz2]
  exact ⟨hpt, fun asg => by
    simpa [educationalFlowOrderCount] using pairCount_congr hpt asg⟩

/-- C7: a speaker-availability hard unit is counted for an assignment
exactly when it holds a timeslot whose day index some speaker with a
nonempty availability set disallows (empty set = available every day),
and an assignment holding no timeslot contributes nothing — pointwise
and in total. -/
theorem speaker_availability_matches_spec :
    (∀ a : TalkAssignment,
      (a.timeslot.isSome && !(allSpeakersAvailable a.talk a.get_day_index))
        = specAvailabilityViolation a)
    ∧ ∀ asg : List TalkAssignment,
        speakerAvailabilityCount asg = asg.countP specAvailabilityViolation := by
  have hpt : ∀ a : TalkAssignment,
      (a.timeslot.isSome && !(allSpeakersAvailable a.talk a.get_day_index))
        = specAvailabilityViolation a := by
    intro a
    cases h : a.timeslot with
    | none => simp [specAvailabilityViolation, h]
    | some t =>
      simp only [specAvailabilityViolation, allSpeakersAvailable,
        TalkAssignment.get_day_index, h, Option.map_some', Option.isSome_some,
        Bool.true_and, Speaker.is_available_on, List.not_all_eq_any_not]
      congr 1
      funext s
      simp [Bool.decide_or, decide_not, Bool.not_or]
  exact ⟨hpt, fun asg => by
    simp only [speakerAvailabilityCount]
    exact List.countP_congr (fun a _ => by rw [hpt a])⟩

/-- C5: for every unordered pair of timeslot-holding talks, the
track/room-consistency soft cost is exactly one when they share a track
name and a day but sit in different rooms, and zero when they share a
room (or do not share track/day) — pointwise, and in total on schedules
whose assignments all hold timeslots. -/
theorem track_room_consistency_matches_spec :
    (∀ a1 a2 : TalkAssignment, a1.timeslot.isSome → a2.timeslot.isSome →
      trackRoomConsistencyCost a1 a2 = specTrackRoomCost a1 a2)
    ∧ ∀ asg : List TalkAssignment, (∀ a ∈ asg, a.timeslot.isSome) →
      trackRoomConsistencyCount asg = pairCount specTrackRoomCost asg := by
  have hpt : ∀ a1 a2 : TalkAssignment, a1.timeslot.isSome → a2.timeslot.isSome →
      trackRoomConsistencyCost a1 a2 = specTrackRoomCost a1 a2 := by
    intro a1 a2 h1 h2
    rw [Option.isSome_iff_exists] at h1 h2
    obtain ⟨t1, ht1⟩ := h1
    obtain ⟨t2, ht2⟩ := h2
    cases hr1 : a1.room <;> cases hr2 : a2.room <;>
      simp [trackRoomConsistencyCost, specTrackRoomCost, dayIdxEq, roomIdEq,
        TalkAssignment.get_day_index, ht1, ht2, hr1, hr2, Bool.beq_eq_decide_eq]
  refine ⟨hpt, fun asg hall => ?_⟩
  exact pairCount_congr_mem asg (fun x hx y hy => hpt x y (hall x hx) (hall y hy))

/-- Concrete instantiation of the C5 theorem: two fully assigned talks
of one track on one day in different rooms. -/
theorem track_room_consistency_matches_spec_witness :
    trackRoomConsistencyCost
        ⟨"assign-1", ⟨"1", "T1", "", "trackA", "INTERMEDIATE", [], 2⟩,
          some ⟨"09:00-10:00", "09:00", "10:00", 0, none⟩, some ⟨"Room A", "Room A"⟩⟩
        ⟨"assign-2", ⟨"2", "T2", "", "trackA", "INTERMEDIATE", [], 2⟩,
          some ⟨"10:00-11:00", "10:00", "11:00", 0, none⟩, some ⟨"Room B", "Room B"⟩⟩
      = specTrackRoomCost
        ⟨"assign-1", ⟨"1", "T1", "", "trackA", "INTERMEDIATE", [], 2⟩,
          some ⟨"09:00-10:00", "09:00", "10:00", 0, none⟩, some ⟨"Room A", "Room A"⟩⟩
        ⟨"assign-2", ⟨"2", "T2", "", "trackA", "INTERMEDIATE", [], 2⟩,
          some ⟨"10:00-11:00", "10:00", "11:00", 0, none⟩, some ⟨"Room B", "Room B"⟩⟩ :=
  track_room_consistency_matches_spec.1 _ _ (by decide) (by decide)

/-- Transitivity of the renderer sort comparison. -/
theorem outputLe_trans (a b c : TalkAssignment) :
    outputLe a b → outputLe b c → outputLe a c := by
  simp only [outputLe, Bool.or_eq_true, Bool.and_eq_true, decide_eq_true_eq]
  rintro (h1 | ⟨h1, h1r⟩) (h2 | ⟨h2, h2r⟩)
  · exact Or.inl (by omega)
  · exact Or.inl (by omega)
  · exact Or.inl (by omega)
  · exact Or.inr ⟨by omega, h1r.trans h2r⟩

/-- Totality of the renderer sort comparison. -/
theorem outputLe_total (a b : TalkAssignment) : outputLe a b || outputLe b a := by
  simp only [outputLe, Bool.or_eq_true, Bool.and_eq_true, decide_eq_true_eq]
  rcases Nat.lt_trichotomy (slotKey a) (slotKey b) with h | h | h
  · exact Or.inl (Or.inl h)
  · rcases le_total (roomKey a) (roomKey b) with hr | hr
    · exact Or.inl (Or.inr ⟨h, hr⟩)
    · exact Or.inr (Or.inr ⟨h.symm, hr⟩)
  · exact Or.inr (Or.inl h)

/-- C10: every renderer emits exactly the assignments holding both a
timeslot and a room, in ascending (slot_index, room name) order, and
the three renderers select the identical list, so rendering the same
solution twice produces the same order. -/
theorem renderers_sorted_fully_assigned :
    (∀ (asg : List TalkAssignment) (a : TalkAssignment),
      a ∈ csvScheduled asg ↔ a ∈ asg ∧ a.timeslot.isSome ∧ a.room.isSome)
    ∧ (∀ asg : List TalkAssignment,
        (csvScheduled asg).Pairwise (fun x y => outputLe x y = true))
    ∧ (∀ asg : List TalkAssignment,
        csvScheduled asg = mdScheduled asg ∧ csvScheduled asg = consoleScheduled asg) := by
  refine ⟨?_, ?_, fun asg => ⟨rfl, rfl⟩⟩
  · intro asg a
    simp [csvScheduled, List.mem_filter, fullyAssigned, and_assoc]
  · intro asg
    exact List.sorted_mergeSort (fun x y z => outputLe_trans x y z) outputLe_total
      (asg.filter fullyAssigned)


/-- C3 counterexample: a talk ending the solve without a (timeslot,
room) pair is omitted from every rendered output, not surfaced there. -/
theorem unassigned_talk_omitted_from_output :
    unassignedExample ∉ csvScheduled [unassignedExample]
    ∧ unassignedExample ∉ mdScheduled [unassignedExample]
    ∧ unassignedExample ∉ consoleScheduled [unassignedExample] := by
  have h : List.filter fullyAssigned [unassignedExample] = [] := by rfl
  refine ⟨?_, ?_, ?_⟩ <;>
    simp [csvScheduled, mdScheduled, consoleScheduled, h]

/-- C3 amended: the solve result itself never drops a talk —
`create_problem` builds exactly one assignment per talk (so a talk
without a pair stays in the result, identifiable by its `none`
fields) — but the renderers emit only the talks holding both a timeslot
and a room and omit the unassigned ones from the rendered output. -/
theorem result_keeps_all_talks_renderers_omit_unassigned :
    (∀ talks : List Talk, (createProblem talks).map TalkAssignment.talk = talks)
    ∧ (∀ (asg : List TalkAssignment) (a : TalkAssignment),
        a ∈ csvScheduled asg ↔ a ∈ asg ∧ a.timeslot.isSome ∧ a.room.isSome) := by
  constructor
  · intro talks
    simp [createProblem, Function.comp_def]
  · intro asg a
    simp [csvScheduled, List.mem_filter, fullyAssigned, and_assoc]

/-- Intersection-fold starting sets only shrink. -/
theorem foldl_inter_subset (l : List (Finset Nat)) :
    ∀ acc : Finset Nat, l.foldl (· ∩ ·) acc ⊆ acc := by
  induction l with
  | nil => intro acc; simp
  | cons x xs ih =>
    intro acc
    simpa using (ih (acc ∩ x)).trans Finset.inter_subset_left

/-- Running the `read_talks_csv` merge update from a nonempty stored set
coincides with plain intersection over the nonempty declarations, as
long as that intersection stays nonempty. -/
theorem mergeStep_run (l : List (Finset Nat)) :
    ∀ acc : Finset Nat, acc ≠ ∅ →
      (l.filter (fun s => s ≠ ∅)).foldl (· ∩ ·) acc ≠ ∅ →
      l.foldl mergeStep acc = (l.filter (fun s => s ≠ ∅)).foldl (· ∩ ·) acc := by
  induction l with
  | nil => intro acc _ _; rfl
  | cons s ss ih =>
    intro acc hacc hne
    by_cases hs : s = ∅
    · subst hs
      have hf : (((∅ : Finset Nat) :: ss).filter (fun s => s ≠ ∅))
          = ss.filter (fun s => s ≠ ∅) := by simp
      rw [hf] at hne
      rw [hf, List.foldl_cons, show mergeStep acc ∅ = acc from by simp [mergeStep]]
      exact ih acc hacc hne
    · have hf : ((s :: ss).filter (fun s => s ≠ ∅))
        = s :: ss.filter (fun s => s ≠ ∅) := by simp [hs]
      rw [hf] at hne
      rw [List.foldl_cons] at hne
      rw [hf, List.foldl_cons, List.foldl_cons,
        show mergeStep acc s = acc ∩ s from by simp [mergeStep, hs, hacc]]
      have hsub := foldl_inter_subset (ss.filter (fun s => s ≠ ∅)) (acc ∩ s)
      have hins : acc ∩ s ≠ ∅ := by
        intro h0
        apply hne
        rw [h0] at hsub
        exact Finset.subset_empty.mp (h0 ▸ hsub)
      exact ih (acc ∩ s) hins hne

/-- C6 counterexample: three talks by one speaker declaring the sets
`⟦0⟧`, `⟦1⟧`, `⟦2⟧` in order leave that speaker with availability
`⟦2⟧`, while the intersection of the declared sets is empty — the
merged set is not the intersection. -/
theorem merge_availability_not_intersection :
    mergeAvailability [{0}, {1}, {2}] = ({2} : Finset Nat)
    ∧ specMergedAvailability [{0}, {1}, {2}] = (∅ : Finset Nat)
    ∧ mergeAvailability [{0}, {1}, {2}]
        ≠ specMergedAvailability [{0}, {1}, {2}] := by decide

/-- C6 amended: for a recurring speaker name `read_talks_csv` keeps the
left `mergeStep` fold of the declared sets; empty declarations never
restrict it, and whenever the intersection of the nonempty declared
sets is itself nonempty the merged set equals that intersection (the
spec's reading) — only an emptied running intersection, later
overwritten by the next nonempty declaration, can diverge from it. -/
theorem merge_availability_amended (decls : List (Finset Nat)) (inter : Finset Nat)
    (hI : interAll (decls.filter (fun s => s ≠ ∅)) = some inter) (hne : inter ≠ ∅) :
    mergeAvailability decls = inter
    ∧ mergeAvailability decls = specMergedAvailability decls := by
  have main : ∀ (ds : List (Finset Nat)) (i : Finset Nat),
      interAll (ds.filter (fun s => s ≠ ∅)) = some i → i ≠ ∅ →
      mergeAvailability ds = i := by
    intro ds
    induction ds with
    | nil => intro i hi _; simp [interAll] at hi
    | cons s ss ih =>
      intro i hi hine
      by_cases hs : s = ∅
      · subst hs
        have hf : (((∅ : Finset Nat) :: ss).filter (fun s => s ≠ ∅))
            = ss.filter (fun s => s ≠ ∅) := by simp
        rw [hf] at hi
        have hstep : mergeAvailability ((∅ : Finset Nat) :: ss) = mergeAvailability ss := by
          simp [mergeAvailability, mergeStep]
        rw [hstep]
        exact ih i hi hine
      · have hf : ((s :: ss).filter (fun s => s ≠ ∅))
          = s :: ss.filter (fun s => s ≠ ∅) := by simp [hs]
        rw [hf] at hi
        simp only [interAll, Option.some.injEq] at hi
        show (s :: ss).foldl mergeStep ∅ = i
        rw [List.foldl_cons, show mergeStep ∅ s = s from by simp [mergeStep, hs]]
        rw [← hi]
        exact mergeStep_run ss s hs (by rw [hi]; exact hine)
  refine ⟨main decls inter hI hne, ?_⟩
  rw [main decls inter hI hne, specMergedAvailability, hI]
  rfl

/-- Concrete instantiation of the C6 amended theorem: declarations
`⟦0,1⟧`, `∅`, `⟦1,2⟧` merge to `⟦1⟧`, the intersection of the nonempty
declared sets. -/
theorem merge_availability_amended_witness :
    mergeAvailability [{0, 1}, ∅, {1, 2}] = ({1} : Finset Nat)
    ∧ mergeAvailability [{0, 1}, ∅, {1, 2}]
        = specMergedAvailability [{0, 1}, ∅, {1, 2}] :=
  merge_availability_amended [{0, 1}, ∅, {1, 2}] {1} (by decide) (by decide)


/-- C1: with 2 timeslots, 1 room and 3 talks sharing no speakers and no
tracks, the engine schedules exactly 2 talks, leaves exactly 1 talk
unassigned, reports 0 hard violations, and returns the
`INFEASIBLE_PARTIAL` status (capacity shortfall is non-fatal, the talk
beyond capacity stays unassigned by design). -/
theorem capacity_shortfall_partial_schedule :
    c1Result.1.countP fullyAssigned = 2
    ∧ c1Result.1.countP (fun a => !(fullyAssigned a)) = 1
    ∧ c1Result.1.length = 3
    ∧ c1Result.2.1 = 0
    ∧ c1Result.2.2 = SolveStatus.infeasibleBestEffort := by decide


/-- C2 counterexample: two talks sharing two speakers in one timeslot
cost two hard units in the stream embedding (one per shared-speaker
link pair), while the spec's per-pair-of-talks rule counts one — the
constraint does not increment by exactly 1 per violating pair of talks
irrespective of the number of shared speakers. -/
theorem speaker_conflict_not_per_pair :
    speakerConflictCount (mkLinks (c2Asg.map TalkAssignment.talk)) c2Asg = 2
    ∧ specSpeakerConflictCount c2Asg = 1
    ∧ speakerConflictCount (mkLinks (c2Asg.map TalkAssignment.talk)) c2Asg
        ≠ specSpeakerConflictCount c2Asg := by decide

/-- Splitting `pairCount` over an append. -/
theorem pairCount_append {α : Type} (f : α → α → Nat) :
    ∀ xs ys : List α,
      pairCount f (xs ++ ys) = pairCount f xs + pairCount f ys + crossSum f xs ys
  | [], ys => by simp [pairCount, crossSum]
  | x :: xs, ys => by
    rw [List.cons_append]
    show ((xs ++ ys).map (f x)).sum + pairCount f (xs ++ ys) = _
    rw [List.map_append, List.sum_append, pairCount_append f xs ys]
    simp only [pairCount, crossSum, List.map_cons, List.sum_cons]
    omega

/-- A pairwise-vanishing cost sums to zero over the pairs of a list. -/
theorem pairCount_eq_zero_of_pairwise {α : Type} (f : α → α → Nat) :
    ∀ l : List α, l.Pairwise (fun x y => f x y = 0) → pairCount f l = 0
  | [], _ => rfl
  | x :: xs, h => by
    rw [List.pairwise_cons] at h
    simp only [pairCount, pairCount_eq_zero_of_pairwise f xs h.2, Nat.add_zero]
    exact List.sum_eq_zero fun n hn => by
      obtain ⟨y, hy, rfl⟩ := List.mem_map.mp hn
      exact h.1 y hy

/-- Empty right operand of `crossSum`. -/
theorem crossSum_nil_right {α : Type} (f : α → α → Nat) (xs : List α) :
    crossSum f xs [] = 0 := by
  simp [crossSum]

/-- `crossSum` distributes over an append on the right. -/
theorem crossSum_append_right {α : Type} (f : α → α → Nat) (xs ys zs : List α) :
    crossSum f xs (ys ++ zs) = crossSum f xs ys + crossSum f xs zs := by
  induction xs with
  | nil => simp [crossSum]
  | cons x xs ih =>
    simp only [crossSum, List.map_cons, List.sum_cons, List.map_append,
      List.sum_append] at ih ⊢
    omega

/-- Summing an indicator times a constant counts the satisfying
elements. -/
theorem sum_map_ite_const {α : Type} (p : α → Bool) (c : Nat) :
    ∀ l : List α, (l.map (fun u => if p u then c else 0)).sum = c * l.countP p
  | [] => by simp
  | x :: xs => by
    by_cases hx : p x <;>
      simp [hx, sum_map_ite_const p c xs, List.countP_cons] <;> ring

/-- In a schedule with pairwise distinct talk ids, filtering by the id
of a member singles out that member. -/
theorem filter_talk_id_unique :
    ∀ asg : List TalkAssignment, (asg.map (fun a => a.talk.id)).Nodup →
      ∀ a ∈ asg, asg.filter (fun x => x.talk.id == a.talk.id) = [a]
  | [], _, a, ha => absurd ha (List.not_mem_nil a)
  | b :: rest, hnd, a, ha => by
    rw [List.map_cons, List.nodup_cons] at hnd
    rcases List.mem_cons.mp ha with rfl | hmem
    · have hrest : rest.filter (fun x => x.talk.id == a.talk.id) = [] := by
        rw [List.filter_eq_nil_iff]
        intro x hx hxe
        rw [beq_iff_eq] at hxe
        exact hnd.1 (hxe ▸ List.mem_map_of_mem (fun a => a.talk.id) hx)
      simp [List.filter_cons, hrest]
    · have hb : (b.talk.id == a.talk.id) = false := by
        rw [beq_eq_false_iff_ne]
        intro hbe
        exact hnd.1 (hbe ▸ List.mem_map_of_mem (fun a => a.talk.id) hmem)
      simp only [List.filter_cons, hb, Bool.false_eq_true, if_false]
      exact filter_talk_id_unique rest hnd.2 a hmem

/-- Value of the stream cost on one pair of links in terms of the links'
owning assignments, given pairwise distinct talk ids. -/
theorem linkPairCost_owner (asg : List TalkAssignment)
    (hids : (asg.map (fun a => a.talk.id)).Nodup)
    (a b : TalkAssignment) (ha : a ∈ asg) (hb : b ∈ asg) (s u : Speaker) :
    linkPairCost asg ⟨a.talk.id ++ "-" ++ s.id, s, a.talk.id⟩
        ⟨b.talk.id ++ "-" ++ u.id, u, b.talk.id⟩
      = if s.id == u.id then
          (if tsIdEq a.timeslot b.timeslot && a.timeslot.isSome then 1 else 0)
        else 0 := by
  by_cases hsu : (s.id == u.id) = true
  · simp only [linkPairCost, hsu, if_true]
    rw [filter_talk_id_unique asg hids a ha]
    simp only [List.map_cons, List.map_nil, List.sum_cons, List.sum_nil, Nat.add_zero]
    have hcg : asg.filter (fun a2 =>
          (a2.talk.id == b.talk.id) && tsIdEq a.timeslot a2.timeslot && a.timeslot.isSome)
        = (asg.filter (fun x => x.talk.id == b.talk.id)).filter
            (fun a2 => tsIdEq a.timeslot a2.timeslot && a.timeslot.isSome) := by
      rw [List.filter_filter]
      apply List.filter_congr
      intro x _
      cases x.talk.id == b.talk.id <;>
        cases tsIdEq a.timeslot x.timeslot <;>
        cases a.timeslot.isSome <;> rfl
    rw [hcg, filter_talk_id_unique asg hids b hb]
    by_cases hc : (tsIdEq a.timeslot b.timeslot && a.timeslot.isSome) = true
    · simp [List.filter_cons, hc]
    · simp [List.filter_cons, hc]
  · have hf : (s.id == u.id) = false := by simpa using hsu
    simp [linkPairCost, hf]

/-- Links inside one talk never pay the stream cost when the talk's
speakers are pairwise distinct. -/
theorem pairCount_linksOf_zero (asg : List TalkAssignment) (t : Talk)
    (hnd : (t.speakers.map Speaker.id).Nodup) :
    pairCount (linkPairCost asg) (linksOf t) = 0 := by
  apply pairCount_eq_zero_of_pairwise
  unfold linksOf
  rw [List.pairwise_map]
  refine (List.pairwise_map.mp hnd).imp ?_
  intro s1 s2 hne
  have hb : (s1.id == s2.id) = false := beq_eq_false_iff_ne.mpr hne
  simp [linkPairCost, hb]

/-- Counting id-matching speakers in a duplicate-free speaker list is a
membership indicator. -/
theorem countP_id_eq_of_nodup (l : List Speaker)
    (hnd : (l.map Speaker.id).Nodup) (i : String) :
    l.countP (fun u => i == u.id) = if i ∈ l.map Speaker.id then 1 else 0 := by
  have h1 : l.countP (fun u => i == u.id)
      = (l.map Speaker.id).countP (fun x => i == x) := by
    rw [List.countP_map]
    rfl
  rw [h1]
  by_cases hm : i ∈ l.map Speaker.id
  · rw [if_pos hm]
    have h2 : (l.map Speaker.id).countP (fun x => i == x)
        = (l.map Speaker.id).count i := by
      rw [List.count_eq_countP]
      exact List.countP_congr (fun x _ => by
        simp only [beq_iff_eq]
        exact eq_comm)
    rw [h2]
    exact List.count_eq_one_of_mem hnd hm
  · rw [if_neg hm, List.countP_eq_zero]
    intro x hx
    simp only [beq_iff_eq]
    exact fun hxe => hm (hxe ▸ hx)

/-- With distinct talk ids and duplicate-free speaker lists, the cross
cost between the links of two member talks is exactly the shared
speaker count of the pair (when co-scheduled). -/
theorem crossSum_linksOf (asg : List TalkAssignment)
    (hids : (asg.map (fun a => a.talk.id)).Nodup)
    (a b : TalkAssignment) (ha : a ∈ asg) (hb : b ∈ asg)
    (hnodb : (b.talk.speakers.map Speaker.id).Nodup) :
    crossSum (linkPairCost asg) (linksOf a.talk) (linksOf b.talk)
      = sharedSpeakerCost a b := by
  have hinner : ∀ s : Speaker,
      ((linksOf b.talk).map
        (linkPairCost asg ⟨a.talk.id ++ "-" ++ s.id, s, a.talk.id⟩)).sum
      = if decide (s.id ∈ b.talk.speakers.map Speaker.id) = true
        then (if tsIdEq a.timeslot b.timeslot && a.timeslot.isSome then 1 else 0)
        else 0 := by
    intro s
    unfold linksOf
    rw [List.map_map]
    have hmapeq : b.talk.speakers.map
        ((linkPairCost asg ⟨a.talk.id ++ "-" ++ s.id, s, a.talk.id⟩) ∘
          fun u : Speaker => (⟨b.talk.id ++ "-" ++ u.id, u, b.talk.id⟩ : TalkSpeaker))
        = b.talk.speakers.map (fun u : Speaker =>
            if s.id == u.id then
              (if tsIdEq a.timeslot b.timeslot && a.timeslot.isSome then 1 else 0)
            else 0) :=
      List.map_congr_left (fun u _ => linkPairCost_owner asg hids a b ha hb s u)
    rw [hmapeq]
    rw [sum_map_ite_const (fun u => s.id == u.id)
      (if tsIdEq a.timeslot b.timeslot && a.timeslot.isSome then 1 else 0)
      b.talk.speakers]
    rw [countP_id_eq_of_nodup b.talk.speakers hnodb s.id]
    by_cases hm : s.id ∈ b.talk.speakers.map Speaker.id <;> simp [hm]
  unfold crossSum
  conv_lhs => rw [show linksOf a.talk
    = a.talk.speakers.map (fun s => (⟨a.talk.id ++ "-" ++ s.id, s, a.talk.id⟩ : TalkSpeaker))
    from rfl]
  rw [List.map_map]
  have houter : a.talk.speakers.map
      ((fun x => ((linksOf b.talk).map (linkPairCost asg x)).sum) ∘
        fun s : Speaker => (⟨a.talk.id ++ "-" ++ s.id, s, a.talk.id⟩ : TalkSpeaker))
      = a.talk.speakers.map (fun s : Speaker =>
          if decide (s.id ∈ b.talk.speakers.map Speaker.id) = true
          then (if tsIdEq a.timeslot b.timeslot && a.timeslot.isSome then 1 else 0)
          else 0) :=
    List.map_congr_left (fun s _ => hinner s)
  rw [houter]
  rw [sum_map_ite_const (fun s => decide (s.id ∈ b.talk.speakers.map Speaker.id))
    (if tsIdEq a.timeslot b.timeslot && a.timeslot.isSome then 1 else 0)
    a.talk.speakers]
  have hlen : a.talk.speakers.countP
      (fun s => decide (s.id ∈ b.talk.speakers.map Speaker.id))
      = (specSharedSpeakerIds a.talk b.talk).length := by
    rw [specSharedSpeakerIds, ← List.countP_eq_length_filter, List.countP_map]
    rfl
  rw [hlen]
  by_cases hcond : (tsIdEq a.timeslot b.timeslot && a.timeslot.isSome) = true <;>
    simp [sharedSpeakerCost, hcond]

/-- Cross cost between one member talk's links and the links of a list
of member talks. -/
theorem crossSum_mkLinks (asg : List TalkAssignment)
    (hids : (asg.map (fun a => a.talk.id)).Nodup)
    (hnod : ∀ a ∈ asg, (a.talk.speakers.map Speaker.id).Nodup)
    (a : TalkAssignment) (ha : a ∈ asg) :
    ∀ l : List TalkAssignment, (∀ x ∈ l, x ∈ asg) →
      crossSum (linkPairCost asg) (linksOf a.talk) (mkLinks (l.map TalkAssignment.talk))
        = (l.map (sharedSpeakerCost a)).sum
  | [], _ => by simp [mkLinks, crossSum_nil_right]
  | b :: rest, hmem => by
    rw [List.map_cons, mkLinks, List.flatMap_cons, crossSum_append_right]
    rw [crossSum_linksOf asg hids a b ha (hmem b (List.mem_cons_self b rest))
      (hnod b (hmem b (List.mem_cons_self b rest)))]
    rw [show (rest.map TalkAssignment.talk).flatMap linksOf
      = mkLinks (rest.map TalkAssignment.talk) from rfl]
    rw [crossSum_mkLinks asg hids hnod a ha rest
      (fun x hx => hmem x (List.mem_cons_of_mem b hx))]
    simp

/-- The stream speaker-conflict count over the links of a member list
equals the per-shared-speaker pair count over the list. -/
theorem mkLinks_pairCount (asg : List TalkAssignment)
    (hids : (asg.map (fun a => a.talk.id)).Nodup)
    (hnod : ∀ a ∈ asg, (a.talk.speakers.map Speaker.id).Nodup) :
    ∀ l : List TalkAssignment, (∀ x ∈ l, x ∈ asg) →
      pairCount (linkPairCost asg) (mkLinks (l.map TalkAssignment.talk))
        = pairCount sharedSpeakerCost l
  | [], _ => rfl
  | a :: rest, hmem => by
    have haa : a ∈ asg := hmem a (List.mem_cons_self a rest)
    rw [List.map_cons, mkLinks, List.flatMap_cons, pairCount_append]
    rw [pairCount_linksOf_zero asg a.talk (hnod a haa)]
    rw [show (rest.map TalkAssignment.talk).flatMap linksOf
      = mkLinks (rest.map TalkAssignment.talk) from rfl]
    rw [mkLinks_pairCount asg hids hnod rest
      (fun x hx => hmem x (List.mem_cons_of_mem a hx))]
    rw [crossSum_mkLinks asg hids hnod a haa rest
      (fun x hx => hmem x (List.mem_cons_of_mem a hx))]
    simp [pairCount, Nat.add_comm]

/-- C2 amended: the speaker-conflict hard constraint increments the
count by exactly 1 for each unordered pair of distinct `TalkSpeaker`
links that carry the same speaker and whose talks are assigned the same
timeslot — equivalently, on a schedule with pairwise distinct talk ids
and duplicate-free per-talk speaker lists, a violating pair of talks
contributes one unit per speaker the pair shares, not one unit per
pair. -/
theorem speaker_conflict_per_shared_speaker (asg : List TalkAssignment)
    (hids : (asg.map (fun a => a.talk.id)).Nodup)
    (hnod : ∀ a ∈ asg, (a.talk.speakers.map Speaker.id).Nodup) :
    speakerConflictCount (mkLinks (asg.map TalkAssignment.talk)) asg
      = perSharedSpeakerConflictCount asg :=
  mkLinks_pairCount asg hids hnod asg (fun _ hx => hx)

/-- Concrete instantiation of the C2 amended theorem on the two-talk,
two-shared-speaker schedule. -/
theorem speaker_conflict_per_shared_speaker_witness :
    speakerConflictCount (mkLinks (c2Asg.map TalkAssignment.talk)) c2Asg
      = perSharedSpeakerConflictCount c2Asg :=
  speaker_conflict_per_shared_speaker c2Asg (by decide) (by decide)

end ConfSched
